import Mathlib

/-! ofxStateMachine: a shallow embedding of `src/ofxStateMachine.h`

The class `itg::ofxStateMachine<SharedData>` owns a registry of named states
(a `std::map` from name to state plus a `std::vector` of names), a nullable
reference to the current state with a cached copy of its name, and one value of
shared data.

Modelling decisions.

* A state object is represented by its identity (`StateRef`, the address held by
  the `ofPtr`); comparing two `ofPtr`s compares these identities.
* `ofxState.h` is not part of the sources, so the virtual `getName()` of the
  states is a parameter `getName : StateRef → String` of the embedding (a state
  reports the same name every time it is asked).
* The hooks of a state are external code.  Every invocation is recorded as an
  `Event.call` in the trace an operation returns, together with the calls to
  `ofLog` and `ofAddListener`.  Hooks are not followed into: they do not call
  back into the machine while an operation runs.
* `std::map<string, StateRef>` is an association list with unique keys:
  `mapFind` is `map::find`, `mapInsert` is `map::insert`, which keeps the
  existing entry when the key is already present.
-/

namespace itg

/-- Identity of a state object: the address an `ofPtr<ofxState<SharedData>>` holds. -/
abbrev StateRef := Nat

/-- Payload of a key event (`data.key` is what the machine forwards). -/
structure ofKeyEventArgs where
  key : Int
  deriving DecidableEq, Repr

/-- Payload of a mouse event: the members `x`, `y` and `button` the machine reads. -/
structure ofMouseEventArgs where
  x : Int
  y : Int
  button : Int
  deriving DecidableEq, Repr

/-- Payload of a touch event; the machine forwards it whole. -/
structure ofTouchEventArgs where
  id : Int
  x : Int
  y : Int
  deriving DecidableEq, Repr

/-- Address of a data member of the machine that is handed out to other code:
`&sharedData` is the only one. -/
inductive MemberRef where
  | sharedData
  deriving DecidableEq, Repr

/-- The member functions of `ofxState` the machine calls, with their arguments. -/
inductive Hook where
  | setSharedData (ref : MemberRef)
  | setup
  | stateEnter
  | stateExit
  | update
  | draw
  | keyPressed (key : Int)
  | keyReleased (key : Int)
  | touchUp (data : ofTouchEventArgs)
  | touchDown (data : ofTouchEventArgs)
  | touchMoved (data : ofTouchEventArgs)
  | touchCancelled (data : ofTouchEventArgs)
  | touchDoubleTap (data : ofTouchEventArgs)
  | mouseReleased (x y button : Int)
  | mousePressed (x y button : Int)
  | mouseMoved (x y : Int)
  | mouseDragged (x y button : Int)
  deriving DecidableEq, Repr

/-- The two levels `ofLog` is called with. -/
inductive LogLevel where
  | OF_LOG_WARNING
  | OF_LOG_ERROR
  deriving DecidableEq, Repr

/-- What an operation of the machine does to the outside world, in order. -/
inductive Event where
  /-- A member function of the state object `state` is called. -/
  | call (state : StateRef) (hook : Hook)
  /-- The machine subscribes to `state->changeStateEvent` (`ofAddListener`). -/
  | addListener (state : StateRef)
  /-- A call `ofLog(level, format, args...)`. -/
  | log (level : LogLevel) (format : String) (args : List String)
  deriving DecidableEq, Repr

/-- The event is a call of a member function of the state object `state`. -/
def Event.isCallOn (state : StateRef) : Event → Bool
  | Event.call s _ => decide (s = state)
  | _ => false

/-- The hook is one of the two that `addState` calls: `setSharedData` or `setup`. -/
def Hook.isRegistration : Hook → Bool
  | Hook.setSharedData _ => true
  | Hook.setup => true
  | _ => false

/-- Format string of the error `changeState` logs for an unknown name. -/
def noStateFormat : String :=
  "No state with name: %s.  Make sure you have added it to the state machine and you have set the state's name correctly.  Set the name by implementing \"const string getName()\" in your state class"

/-- Lookup in the state map: `states.find(name)`, `none` standing for `states.end()`. -/
def mapFind : List (String × StateRef) → String → Option StateRef
  | [], _ => none
  | (k, s) :: rest, name => if k = name then some s else mapFind rest name

/-- Insertion in the state map: `states.insert(make_pair(name, ptr))`.  A `std::map`
keeps the entry it already has for a key. -/
def mapInsert (states : List (String × StateRef)) (name : String) (ptr : StateRef) :
    List (String × StateRef) :=
  match mapFind states name with
  | some _ => states
  | none => states ++ [(name, ptr)]

/-- The data members of `ofxStateMachine<SharedData>`. -/
structure ofxStateMachine (SharedData : Type) where
  /-- The member `StateRef currentState`; `none` is the null pointer. -/
  currentState : Option StateRef
  /-- The member `string currentStateName`. -/
  currentStateName : String
  /-- The member `vector<string> stateNames`. -/
  stateNames : List String
  /-- The member `map<string, StateRef> states`. -/
  states : List (String × StateRef)
  /-- The member `SharedData sharedData`. -/
  sharedData : SharedData
  deriving DecidableEq, Repr

namespace ofxStateMachine

variable {SharedData : Type} (getName : StateRef → String)

/-- The machine after its constructor: a null current state, an empty name, an empty
registry; `d` is the default-constructed shared data. -/
def fresh (d : SharedData) : ofxStateMachine SharedData :=
  { currentState := none, currentStateName := "", stateNames := [], states := [],
    sharedData := d }

/-- Lines 70-72 of `addState`: the state is given the shared data, set up, and its
change-state event is subscribed to.  No data member is written. -/
def addStateWire (m : ofxStateMachine SharedData) (state : StateRef) :
    ofxStateMachine SharedData × List Event :=
  (m, [Event.call state (Hook.setSharedData MemberRef.sharedData),
       Event.call state Hook.setup,
       Event.addListener state])

/-- Lines 73-76 of `addState`: the state is inserted in the map under its name and the
name is appended to the name list. -/
def addStateRegister (m : ofxStateMachine SharedData) (state : StateRef) :
    ofxStateMachine SharedData × List Event :=
  ({ m with states := mapInsert m.states (getName state) state,
            stateNames := m.stateNames ++ [getName state] }, [])

/-- The member function `addState(state)` (the returned `StateRef` is `state`). -/
def addState (m : ofxStateMachine SharedData) (state : StateRef) :
    ofxStateMachine SharedData × List Event :=
  let wired := addStateWire m state
  let registered := addStateRegister getName wired.1 state
  (registered.1, wired.2 ++ registered.2)

/-- The accessor `getSharedData()`: the reference it returns designates the member. -/
def getSharedData (_m : ofxStateMachine SharedData) : MemberRef :=
  MemberRef.sharedData

/-- The accessor `getCurrentState()`. -/
def getCurrentState (m : ofxStateMachine SharedData) : Option StateRef :=
  m.currentState

/-- The accessor `getCurrentStateName()`. -/
def getCurrentStateName (m : ofxStateMachine SharedData) : String :=
  m.currentStateName

/-- The accessor `getStateNames()`. -/
def getStateNames (m : ofxStateMachine SharedData) : List String :=
  m.stateNames

/-- The loop of `hasState`: scan from the iterator position to the end. -/
def hasStateLoop : List String → String → Bool
  | [], _ => false
  | x :: rest, name => if x = name then true else hasStateLoop rest name

/-- The member function `hasState(name)`. -/
def hasState (m : ofxStateMachine SharedData) (name : String) : Bool :=
  hasStateLoop m.stateNames name

/-- The member function `changeState(name)`. -/
def changeState (m : ofxStateMachine SharedData) (name : String) :
    ofxStateMachine SharedData × List Event :=
  if name = m.currentStateName then (m, [])
  else
    match mapFind m.states name with
    | none => (m, [Event.log LogLevel.OF_LOG_ERROR noStateFormat [name]])
    | some found =>
      if some found ≠ m.currentState then
        let exited : List Event :=
          match m.currentState with
          | some old => [Event.call old Hook.stateExit]
          | none => []
        ({ m with currentState := some found, currentStateName := getName found },
         exited ++ [Event.call found Hook.stateEnter])
      else (m, [])

/-- The listener `onChangeState(stateName)`. -/
def onChangeState (m : ofxStateMachine SharedData) (stateName : String) :
    ofxStateMachine SharedData × List Event :=
  changeState getName m stateName

/-- The member function `update()`. -/
def update (m : ofxStateMachine SharedData) : ofxStateMachine SharedData × List Event :=
  match m.currentState with
  | some cur => (m, [Event.call cur Hook.update])
  | none => (m, [Event.log LogLevel.OF_LOG_WARNING
      "State machine update called with no state set" []])

/-- The member function `draw()`. -/
def draw (m : ofxStateMachine SharedData) : ofxStateMachine SharedData × List Event :=
  match m.currentState with
  | some cur => (m, [Event.call cur Hook.draw])
  | none => (m, [Event.log LogLevel.OF_LOG_WARNING
      "State machine draw called with no state set" []])

/-- The listener `onUpdate(data)`. -/
def onUpdate (m : ofxStateMachine SharedData) : ofxStateMachine SharedData × List Event :=
  update m

/-- The listener `onDraw(data)`. -/
def onDraw (m : ofxStateMachine SharedData) : ofxStateMachine SharedData × List Event :=
  draw m

/-- The listener `onKeyPressed(data)`. -/
def onKeyPressed (m : ofxStateMachine SharedData) (data : ofKeyEventArgs) :
    ofxStateMachine SharedData × List Event :=
  match m.currentState with
  | some cur => (m, [Event.call cur (Hook.keyPressed data.key)])
  | none => (m, [Event.log LogLevel.OF_LOG_WARNING
      "State machine keyPressed called with no state set" []])

/-- The listener `onKeyReleased(data)`. -/
def onKeyReleased (m : ofxStateMachine SharedData) (data : ofKeyEventArgs) :
    ofxStateMachine SharedData × List Event :=
  match m.currentState with
  | some cur => (m, [Event.call cur (Hook.keyReleased data.key)])
  | none => (m, [Event.log LogLevel.OF_LOG_WARNING
      "State machine keyReleased called with no state set" []])

/-- The listener `onTouchUp(data)`. -/
def onTouchUp (m : ofxStateMachine SharedData) (data : ofTouchEventArgs) :
    ofxStateMachine SharedData × List Event :=
  match m.currentState with
  | some cur => (m, [Event.call cur (Hook.touchUp data)])
  | none => (m, [])

/-- The listener `onTouchDown(data)`. -/
def onTouchDown (m : ofxStateMachine SharedData) (data : ofTouchEventArgs) :
    ofxStateMachine SharedData × List Event :=
  match m.currentState with
  | some cur => (m, [Event.call cur (Hook.touchDown data)])
  | none => (m, [])

/-- The listener `onTouchMoved(data)`. -/
def onTouchMoved (m : ofxStateMachine SharedData) (data : ofTouchEventArgs) :
    ofxStateMachine SharedData × List Event :=
  match m.currentState with
  | some cur => (m, [Event.call cur (Hook.touchMoved data)])
  | none => (m, [])

/-- The listener `onTouchCancelled(data)`. -/
def onTouchCancelled (m : ofxStateMachine SharedData) (data : ofTouchEventArgs) :
    ofxStateMachine SharedData × List Event :=
  match m.currentState with
  | some cur => (m, [Event.call cur (Hook.touchCancelled data)])
  | none => (m, [])

/-- The listener `onTouchDoubleTap(data)`. -/
def onTouchDoubleTap (m : ofxStateMachine SharedData) (data : ofTouchEventArgs) :
    ofxStateMachine SharedData × List Event :=
  match m.currentState with
  | some cur => (m, [Event.call cur (Hook.touchDoubleTap data)])
  | none => (m, [])

/-- The listener `onMouseReleased(data)`. -/
def onMouseReleased (m : ofxStateMachine SharedData) (data : ofMouseEventArgs) :
    ofxStateMachine SharedData × List Event :=
  match m.currentState with
  | some cur => (m, [Event.call cur (Hook.mouseReleased data.x data.y data.button)])
  | none => (m, [])

/-- The listener `onMousePressed(data)`. -/
def onMousePressed (m : ofxStateMachine SharedData) (data : ofMouseEventArgs) :
    ofxStateMachine SharedData × List Event :=
  match m.currentState with
  | some cur => (m, [Event.call cur (Hook.mousePressed data.x data.y data.button)])
  | none => (m, [])

/-- The listener `onMouseMoved(data)`. -/
def onMouseMoved (m : ofxStateMachine SharedData) (data : ofMouseEventArgs) :
    ofxStateMachine SharedData × List Event :=
  match m.currentState with
  | some cur => (m, [Event.call cur (Hook.mouseMoved data.x data.y)])
  | none => (m, [])

/-- The listener `onMouseDragged(data)`. -/
def onMouseDragged (m : ofxStateMachine SharedData) (data : ofMouseEventArgs) :
    ofxStateMachine SharedData × List Event :=
  match m.currentState with
  | some cur => (m, [Event.call cur (Hook.mouseDragged data.x data.y data.button)])
  | none => (m, [])

/-- A call of a public member function of the machine by the host application, or a
write through the reference `getSharedData()` returns. -/
inductive Op (SharedData : Type) where
  | addState (state : StateRef)
  | changeState (name : String)
  | update
  | draw
  | onKeyPressed (data : ofKeyEventArgs)
  | onKeyReleased (data : ofKeyEventArgs)
  | onTouchUp (data : ofTouchEventArgs)
  | onTouchDown (data : ofTouchEventArgs)
  | onTouchMoved (data : ofTouchEventArgs)
  | onTouchCancelled (data : ofTouchEventArgs)
  | onTouchDoubleTap (data : ofTouchEventArgs)
  | onMouseReleased (data : ofMouseEventArgs)
  | onMousePressed (data : ofMouseEventArgs)
  | onMouseMoved (data : ofMouseEventArgs)
  | onMouseDragged (data : ofMouseEventArgs)
  | writeSharedData (value : SharedData)

/-- One operation on the machine: the machine afterwards and the events it caused. -/
def step (m : ofxStateMachine SharedData) :
    Op SharedData → ofxStateMachine SharedData × List Event
  | Op.addState state => addState getName m state
  | Op.changeState name => changeState getName m name
  | Op.update => update m
  | Op.draw => draw m
  | Op.onKeyPressed data => onKeyPressed m data
  | Op.onKeyReleased data => onKeyReleased m data
  | Op.onTouchUp data => onTouchUp m data
  | Op.onTouchDown data => onTouchDown m data
  | Op.onTouchMoved data => onTouchMoved m data
  | Op.onTouchCancelled data => onTouchCancelled m data
  | Op.onTouchDoubleTap data => onTouchDoubleTap m data
  | Op.onMouseReleased data => onMouseReleased m data
  | Op.onMousePressed data => onMousePressed m data
  | Op.onMouseMoved data => onMouseMoved m data
  | Op.onMouseDragged data => onMouseDragged m data
  | Op.writeSharedData value => ({ m with sharedData := value }, [])

/-- A sequence of operations, one after the other: the final machine and the whole
trace of events. -/
def run (m : ofxStateMachine SharedData) :
    List (Op SharedData) → ofxStateMachine SharedData × List Event
  | [] => (m, [])
  | op :: ops =>
    let first := step getName m op
    let others := run first.1 ops
    (others.1, first.2 ++ others.2)

/-- A machine the host can have: the result of operations on a constructed machine. -/
def Reachable (m : ofxStateMachine SharedData) : Prop :=
  ∃ (d : SharedData) (ops : List (Op SharedData)), (run getName (fresh d) ops).1 = m

/-- The states that the operations `ops` add, in order. -/
def addedStates : List (Op SharedData) → List StateRef
  | [] => []
  | Op.addState state :: ops => state :: addedStates ops
  | _ :: ops => addedStates ops

/-- What holds of every machine the host can have: map entries are stored under the
name of their state, the name list holds exactly the keys of the map, and the current
state (if any) is the map entry under the cached name. -/
structure Consistent (m : ofxStateMachine SharedData) : Prop where
  keyed : ∀ k s, (k, s) ∈ m.states → getName s = k
  listed : ∀ name, hasStateLoop m.stateNames name = true ↔ (mapFind m.states name).isSome
  unset : m.currentState = none → m.currentStateName = ""
  current : ∀ cur, m.currentState = some cur →
    m.currentStateName = getName cur ∧ mapFind m.states (getName cur) = some cur

/-- The operations that forward a frame or input event to the current state: all but
`addState`, `changeState` and a write to the shared data. -/
def Op.isDispatch : Op SharedData → Bool
  | Op.addState _ => false
  | Op.changeState _ => false
  | Op.writeSharedData _ => false
  | _ => true

/-- The hook trace of a chain of transitions that starts in state `cur` and goes
through `targets` one after the other: an exit of the state being replaced, then an
enter of its replacement, for every transition. -/
def chainTrace : StateRef → List StateRef → List Event
  | _, [] => []
  | cur, next :: rest =>
    Event.call cur Hook.stateExit :: Event.call next Hook.stateEnter :: chainTrace next rest

/-- Names for the worked examples: state object 0 is called A, state object 1 is
called B, every other one C. -/
def exampleName : StateRef → String :=
  fun s => if s = 0 then "A" else if s = 1 then "B" else "C"

/-- The machine of the worked examples: states A and B registered, no current state. -/
def exampleMachine : ofxStateMachine Unit :=
  (run exampleName (fresh ()) [Op.addState 0, Op.addState 1]).1

/-- The machine of the worked examples after `changeState` to A. -/
def exampleMachineInA : ofxStateMachine Unit :=
  (run exampleName (fresh ()) [Op.addState 0, Op.addState 1, Op.changeState "A"]).1

/-- The first state of the list whose name is `name`. -/
def firstNamed : List StateRef → String → Option StateRef
  | [], _ => none
  | s :: rest, name => if getName s = name then some s else firstNamed rest name

/-- The variant of `changeState` without the pointer comparison of line 128: the exit,
update and enter sequence runs whenever the lookup succeeds. -/
def changeStateUnguarded (m : ofxStateMachine SharedData) (name : String) :
    ofxStateMachine SharedData × List Event :=
  if name = m.currentStateName then (m, [])
  else
    match mapFind m.states name with
    | none => (m, [Event.log LogLevel.OF_LOG_ERROR noStateFormat [name]])
    | some found =>
      let exited : List Event :=
        match m.currentState with
        | some old => [Event.call old Hook.stateExit]
        | none => []
      ({ m with currentState := some found, currentStateName := getName found },
       exited ++ [Event.call found Hook.stateEnter])

/-! ## Lemmas on the registry -/

theorem hasStateLoop_iff_mem (names : List String) (name : String) :
    hasStateLoop names name = true ↔ name ∈ names := by
  induction names with
  | nil => simp [hasStateLoop]
  | cons x rest ih =>
    by_cases hx : x = name
    · simp [hasStateLoop, hx]
    · have hx2 : ¬ name = x := fun h => hx h.symm
      simp [hasStateLoop, hx, hx2, ih]

theorem mapFind_mem (states : List (String × StateRef)) (name : String) (s : StateRef)
    (h : mapFind states name = some s) : (name, s) ∈ states := by
  induction states with
  | nil => simp [mapFind] at h
  | cons e rest ih =>
    obtain ⟨k, v⟩ := e
    by_cases hk : k = name
    · simp [mapFind, hk] at h
      simp [hk, h]
    · simp [mapFind, hk] at h
      exact List.mem_cons_of_mem _ (ih h)

theorem mapFind_isSome_of_mem (states : List (String × StateRef)) (name : String)
    (s : StateRef) (h : (name, s) ∈ states) : (mapFind states name).isSome = true := by
  induction states with
  | nil => simp at h
  | cons e rest ih =>
    obtain ⟨k, v⟩ := e
    by_cases hk : k = name
    · simp [mapFind, hk]
    · have hne : (name, s) ≠ (k, v) := by
        intro heq
        exact hk (congrArg Prod.fst heq).symm
      rcases List.mem_cons.mp h with h1 | h1
      · exact absurd h1 hne
      · simp [mapFind, hk, ih h1]

theorem mapFind_append (a b : List (String × StateRef)) (name : String) :
    mapFind (a ++ b) name =
      match mapFind a name with
      | some s => some s
      | none => mapFind b name := by
  induction a with
  | nil => simp [mapFind]
  | cons e rest ih =>
    obtain ⟨k, v⟩ := e
    by_cases hk : k = name
    · simp [mapFind, hk]
    · simp [mapFind, hk, ih]

theorem mapFind_mapInsert_of_some (states : List (String × StateRef)) (k : String)
    (ptr : StateRef) (name : String) (s : StateRef) (h : mapFind states name = some s) :
    mapFind (mapInsert states k ptr) name = some s := by
  unfold mapInsert
  cases hk : mapFind states k with
  | some old => simpa using h
  | none => simp [mapFind_append, h]

theorem mapFind_mapInsert_isSome (states : List (String × StateRef)) (k : String)
    (ptr : StateRef) (name : String) :
    (mapFind (mapInsert states k ptr) name).isSome = true ↔
      ((mapFind states name).isSome = true ∨ k = name) := by
  unfold mapInsert
  cases hk : mapFind states k with
  | some old =>
    constructor
    · intro h
      exact Or.inl (by simpa using h)
    · rintro (h | h)
      · simpa using h
      · subst h
        simp [hk]
  | none =>
    cases hn : mapFind states name with
    | some s =>
      simp [mapFind_append, hn]
    | none =>
      by_cases hkn : k = name
      · simp [mapFind_append, hn, mapFind, hkn]
      · simp [mapFind_append, hn, mapFind, hkn]

theorem mem_mapInsert (states : List (String × StateRef)) (k : String) (ptr : StateRef)
    (e : String × StateRef) (h : e ∈ mapInsert states k ptr) :
    e ∈ states ∨ e = (k, ptr) := by
  unfold mapInsert at h
  cases hk : mapFind states k with
  | some old =>
    rw [hk] at h
    exact Or.inl h
  | none =>
    rw [hk] at h
    simpa using h

/-! ## Lemmas on sequences of operations -/

theorem run_append (m : ofxStateMachine SharedData) (a b : List (Op SharedData)) :
    run getName m (a ++ b) =
      ((run getName (run getName m a).1 b).1,
       (run getName m a).2 ++ (run getName (run getName m a).1 b).2) := by
  induction a generalizing m with
  | nil => simp [run]
  | cons op ops ih => simp [run, ih, List.append_assoc]

theorem changeState_cases (m : ofxStateMachine SharedData) (name : String) :
    changeState getName m name = (m, []) ∨
      changeState getName m name =
        (m, [Event.log LogLevel.OF_LOG_ERROR noStateFormat [name]]) ∨
      ∃ found, mapFind m.states name = some found ∧
        changeState getName m name =
          ({ m with currentState := some found, currentStateName := getName found },
            (match m.currentState with
              | some old => [Event.call old Hook.stateExit]
              | none => []) ++ [Event.call found Hook.stateEnter]) := by
  unfold changeState
  by_cases h1 : name = m.currentStateName
  · simp [h1]
  · cases hf : mapFind m.states name with
    | none => simp [h1]
    | some found =>
      by_cases h2 : some found = m.currentState
      · left
        simp only [h1, if_false, ne_eq, h2, not_true_eq_false]
      · right
        right
        exact ⟨found, rfl, by simp only [h1, if_false, ne_eq, h2, not_false_eq_true, if_true]⟩

theorem changeState_states (m : ofxStateMachine SharedData) (name : String) :
    (changeState getName m name).1.states = m.states ∧
      (changeState getName m name).1.stateNames = m.stateNames ∧
      (changeState getName m name).1.sharedData = m.sharedData := by
  unfold changeState
  by_cases h1 : name = m.currentStateName
  · simp [h1]
  · cases hf : mapFind m.states name with
    | none => simp [h1]
    | some found =>
      by_cases h2 : some found = m.currentState
      · simp [h1, h2]
      · simp [h1, h2]

theorem step_dispatch_fst (m : ofxStateMachine SharedData) (op : Op SharedData)
    (h : op.isDispatch = true) : (step getName m op).1 = m := by
  cases op <;> simp [Op.isDispatch] at h <;>
    cases hc : m.currentState <;>
    simp [step, update, draw, onKeyPressed, onKeyReleased, onTouchUp, onTouchDown,
      onTouchMoved, onTouchCancelled, onTouchDoubleTap, onMouseReleased, onMousePressed,
      onMouseMoved, onMouseDragged, hc]

theorem consistent_fresh (d : SharedData) : Consistent getName (fresh d) := by
  constructor
  · intro k s h
    simp [fresh] at h
  · intro name
    simp [fresh, hasStateLoop, mapFind]
  · intro _
    rfl
  · intro cur h
    simp [fresh] at h

theorem consistent_addState (m : ofxStateMachine SharedData) (state : StateRef)
    (hm : Consistent getName m) : Consistent getName (addState getName m state).1 := by
  constructor
  · intro k s h
    rcases mem_mapInsert _ _ _ _ h with h1 | h1
    · exact hm.keyed k s h1
    · cases h1
      rfl
  · intro name
    have h1 := hm.listed name
    simp only [addState, addStateWire, addStateRegister]
    rw [mapFind_mapInsert_isSome, hasStateLoop_iff_mem, List.mem_append, ← h1,
      hasStateLoop_iff_mem]
    simp [eq_comm]
  · intro h
    exact hm.unset h
  · intro cur h
    have h2 := hm.current cur h
    exact ⟨h2.1, mapFind_mapInsert_of_some _ _ _ _ _ h2.2⟩

theorem consistent_changeState (m : ofxStateMachine SharedData) (name : String)
    (hm : Consistent getName m) : Consistent getName (changeState getName m name).1 := by
  unfold changeState
  by_cases h1 : name = m.currentStateName
  · simpa [h1] using hm
  · cases hf : mapFind m.states name with
    | none => simpa [h1] using hm
    | some found =>
      by_cases h2 : some found = m.currentState
      · simpa [h1, h2] using hm
      · simp only [h1, h2, if_false, ne_eq, not_false_eq_true, if_true]
        have hname : getName found = name := hm.keyed name found (mapFind_mem _ _ _ hf)
        constructor
        · exact hm.keyed
        · exact hm.listed
        · intro h
          simp at h
        · intro cur h
          simp only [Option.some.injEq] at h
          subst h
          exact ⟨rfl, by rw [hname]; exact hf⟩

theorem consistent_step (m : ofxStateMachine SharedData) (op : Op SharedData)
    (hm : Consistent getName m) : Consistent getName (step getName m op).1 := by
  by_cases hd : op.isDispatch = true
  · rw [step_dispatch_fst getName m op hd]
    exact hm
  · cases op <;> simp [Op.isDispatch] at hd
    · exact consistent_addState getName m _ hm
    · exact consistent_changeState getName m _ hm
    · exact ⟨hm.keyed, hm.listed, hm.unset, hm.current⟩

theorem consistent_run (m : ofxStateMachine SharedData) (ops : List (Op SharedData))
    (hm : Consistent getName m) : Consistent getName (run getName m ops).1 := by
  induction ops generalizing m with
  | nil => exact hm
  | cons op ops ih => exact ih _ (consistent_step getName m op hm)

theorem consistent_of_reachable (m : ofxStateMachine SharedData)
    (h : Reachable getName m) : Consistent getName m := by
  obtain ⟨d, ops, rfl⟩ := h
  exact consistent_run getName _ ops (consistent_fresh getName d)

theorem reachable_run (m : ofxStateMachine SharedData) (ops : List (Op SharedData))
    (h : Reachable getName m) : Reachable getName (run getName m ops).1 := by
  obtain ⟨d, pre, rfl⟩ := h
  exact ⟨d, pre ++ ops, by rw [run_append]⟩

theorem changeState_found (m : ofxStateMachine SharedData) (name : String)
    (target : StateRef) (hm : Consistent getName m) (hne : name ≠ m.currentStateName)
    (hreg : mapFind m.states name = some target) :
    changeState getName m name =
      ({ m with currentState := some target, currentStateName := name },
        (match m.currentState with
          | some old => [Event.call old Hook.stateExit]
          | none => []) ++ [Event.call target Hook.stateEnter]) := by
  have hname : getName target = name := hm.keyed name target (mapFind_mem _ _ _ hreg)
  have hne1 : ¬ name = m.currentStateName := hne
  have hdiff : ¬ some target = m.currentState := by
    intro h
    exact hne1 (by rw [(hm.current target h.symm).1, hname])
  simp only [changeState, hne1, hreg, hdiff, if_false, ne_eq, not_false_eq_true, if_true,
    hname]

theorem step_stateNames (m : ofxStateMachine SharedData) (op : Op SharedData) :
    (step getName m op).1.stateNames =
      m.stateNames ++ (addedStates [op]).map getName := by
  by_cases hd : op.isDispatch = true
  · rw [step_dispatch_fst getName m op hd]
    cases op <;> simp [Op.isDispatch] at hd <;> simp [addedStates]
  · cases op <;> simp [Op.isDispatch] at hd
    · simp [step, addState, addStateWire, addStateRegister, addedStates]
    · simp [step, (changeState_states getName m _).2.1, addedStates]
    · simp [step, addedStates]

theorem addedStates_cons (op : Op SharedData) (ops : List (Op SharedData)) :
    addedStates (op :: ops) = addedStates [op] ++ addedStates ops := by
  cases op <;> simp [addedStates]

theorem addedStates_append (a b : List (Op SharedData)) :
    addedStates (a ++ b) = addedStates a ++ addedStates b := by
  induction a with
  | nil => simp [addedStates]
  | cons op ops ih =>
    rw [List.cons_append, addedStates_cons, ih, addedStates_cons op ops, List.append_assoc]

theorem run_stateNames (m : ofxStateMachine SharedData) (ops : List (Op SharedData)) :
    (run getName m ops).1.stateNames = m.stateNames ++ (addedStates ops).map getName := by
  induction ops generalizing m with
  | nil => simp [run, addedStates]
  | cons op ops ih =>
    rw [addedStates_cons]
    simp only [run, ih, step_stateNames, List.map_append, List.append_assoc]

/-! ## Lemmas on the trace -/

theorem step_states_mem (m : ofxStateMachine SharedData) (op : Op SharedData)
    (k : String) (s : StateRef) (h : (k, s) ∈ (step getName m op).1.states) :
    (k, s) ∈ m.states ∨ s ∈ addedStates [op] := by
  by_cases hd : op.isDispatch = true
  · rw [step_dispatch_fst getName m op hd] at h
    exact Or.inl h
  · cases op <;> simp [Op.isDispatch] at hd
    · simp only [step, addState, addStateWire, addStateRegister] at h
      rcases mem_mapInsert _ _ _ _ h with h1 | h1
      · exact Or.inl h1
      · cases h1
        simp [addedStates]
    · simp only [step, (changeState_states getName m _).1] at h
      exact Or.inl h
    · exact Or.inl h

theorem run_states_mem (m : ofxStateMachine SharedData) (ops : List (Op SharedData))
    (k : String) (s : StateRef) (h : (k, s) ∈ (run getName m ops).1.states) :
    (k, s) ∈ m.states ∨ s ∈ addedStates ops := by
  induction ops generalizing m with
  | nil => exact Or.inl h
  | cons op ops ih =>
    rw [addedStates_cons]
    rcases ih _ h with h1 | h1
    · rcases step_states_mem getName m op k s h1 with h2 | h2
      · exact Or.inl h2
      · exact Or.inr (List.mem_append_left _ h2)
    · exact Or.inr (List.mem_append_right _ h1)

theorem changeState_call_mem (m : ofxStateMachine SharedData) (name : String)
    (hm : Consistent getName m) (s : StateRef) (hook : Hook)
    (h : Event.call s hook ∈ (changeState getName m name).2) :
    (∃ k, (k, s) ∈ m.states) ∧ hook.isRegistration = false := by
  rcases changeState_cases getName m name with h1 | h1 | ⟨found, hf, h1⟩
  · simp [h1] at h
  · simp [h1] at h
  · rw [h1] at h
    simp only [List.mem_append, List.mem_singleton, Event.call.injEq] at h
    rcases h with h3 | h3
    · cases hc : m.currentState with
      | none => simp [hc] at h3
      | some old =>
        simp only [hc, List.mem_singleton, Event.call.injEq] at h3
        rw [h3.1, h3.2]
        exact ⟨⟨_, mapFind_mem _ _ _ (hm.current old hc).2⟩, rfl⟩
    · rw [h3.1, h3.2]
      exact ⟨⟨_, mapFind_mem _ _ _ hf⟩, rfl⟩

theorem dispatch_call_mem (m : ofxStateMachine SharedData) (op : Op SharedData)
    (hd : op.isDispatch = true) (hm : Consistent getName m) (s : StateRef) (hook : Hook)
    (h : Event.call s hook ∈ (step getName m op).2) :
    (∃ k, (k, s) ∈ m.states) ∧ hook.isRegistration = false := by
  cases hc : m.currentState with
  | none =>
    cases op <;> simp [Op.isDispatch] at hd <;>
      simp [step, update, draw, onKeyPressed, onKeyReleased, onTouchUp, onTouchDown,
        onTouchMoved, onTouchCancelled, onTouchDoubleTap, onMouseReleased, onMousePressed,
        onMouseMoved, onMouseDragged, hc] at h
  | some cur =>
    have hin : ∃ k, (k, cur) ∈ m.states := ⟨_, mapFind_mem _ _ _ (hm.current cur hc).2⟩
    cases op <;> simp [Op.isDispatch] at hd <;>
      simp [step, update, draw, onKeyPressed, onKeyReleased, onTouchUp, onTouchDown,
        onTouchMoved, onTouchCancelled, onTouchDoubleTap, onMouseReleased, onMousePressed,
        onMouseMoved, onMouseDragged, hc] at h <;>
      rw [h.1, h.2] <;> exact ⟨hin, rfl⟩

theorem step_call_mem (m : ofxStateMachine SharedData) (op : Op SharedData)
    (hm : Consistent getName m) (s : StateRef) (hook : Hook)
    (h : Event.call s hook ∈ (step getName m op).2) :
    ((∃ k, (k, s) ∈ m.states) ∧ hook.isRegistration = false) ∨ s ∈ addedStates [op] := by
  by_cases hd : op.isDispatch = true
  · exact Or.inl (dispatch_call_mem getName m op hd hm s hook h)
  · cases op <;> simp [Op.isDispatch] at hd
    · simp [step, addState, addStateWire, addStateRegister] at h
      right
      rcases h with h | h <;> simp [addedStates, h.1]
    · exact Or.inl (changeState_call_mem getName m _ hm s hook h)
    · simp [step] at h

theorem run_call_mem (m : ofxStateMachine SharedData) (ops : List (Op SharedData))
    (hm : Consistent getName m) (s : StateRef) (hook : Hook)
    (h : Event.call s hook ∈ (run getName m ops).2) :
    (∃ k, (k, s) ∈ m.states) ∨ s ∈ addedStates ops := by
  induction ops generalizing m with
  | nil => simp [run] at h
  | cons op ops ih =>
    rw [addedStates_cons]
    simp only [run, List.mem_append] at h
    rcases h with h | h
    · rcases step_call_mem getName m op hm s hook h with h1 | h1
      · exact Or.inl h1.1
      · exact Or.inr (List.mem_append_left _ h1)
    · rcases ih _ (consistent_step getName m op hm) h with ⟨k, h1⟩ | h1
      · rcases step_states_mem getName m op k s h1 with h2 | h2
        · exact Or.inl ⟨k, h2⟩
        · exact Or.inr (List.mem_append_left _ h2)
      · exact Or.inr (List.mem_append_right _ h1)

theorem run_registration_mem (m : ofxStateMachine SharedData) (ops : List (Op SharedData))
    (hm : Consistent getName m) (s : StateRef) (hook : Hook)
    (hreg : hook.isRegistration = true)
    (h : Event.call s hook ∈ (run getName m ops).2) : s ∈ addedStates ops := by
  induction ops generalizing m with
  | nil => simp [run] at h
  | cons op ops ih =>
    rw [addedStates_cons]
    simp only [run, List.mem_append] at h
    rcases h with h | h
    · rcases step_call_mem getName m op hm s hook h with h1 | h1
      · rw [h1.2] at hreg
        exact absurd hreg (by decide)
      · exact List.mem_append_left _ h1
    · exact List.mem_append_right _ (ih _ (consistent_step getName m op hm) h)

theorem addedStates_split (ops : List (Op SharedData)) (state : StateRef)
    (h : state ∈ addedStates ops) :
    ∃ before after, ops = before ++ Op.addState state :: after := by
  induction ops with
  | nil => simp [addedStates] at h
  | cons op ops ih =>
    rw [addedStates_cons, List.mem_append] at h
    rcases h with h | h
    · cases op <;> simp [addedStates] at h
      subst h
      exact ⟨[], ops, rfl⟩
    · obtain ⟨before, after, hsplit⟩ := ih h
      exact ⟨op :: before, after, by rw [hsplit, List.cons_append]⟩

/-! ## Lemmas on duplicate names -/

theorem mapFind_mapInsert (states : List (String × StateRef)) (k : String)
    (ptr : StateRef) (name : String) :
    mapFind (mapInsert states k ptr) name =
      match mapFind states name with
      | some s => some s
      | none => if k = name then some ptr else none := by
  unfold mapInsert
  cases hk : mapFind states k with
  | some old =>
    cases hn : mapFind states name with
    | some s => simp [hn]
    | none =>
      have hne : ¬ k = name := by
        intro h
        rw [h, hn] at hk
        simp at hk
      simp [hn, hne]
  | none =>
    cases hn : mapFind states name with
    | some s => simp [mapFind_append, hn]
    | none => simp [mapFind_append, hn, mapFind]

theorem step_states (m : ofxStateMachine SharedData) (op : Op SharedData) :
    (step getName m op).1.states =
      (addedStates [op]).foldl (fun st s => mapInsert st (getName s) s) m.states := by
  by_cases hd : op.isDispatch = true
  · rw [step_dispatch_fst getName m op hd]
    cases op <;> simp [Op.isDispatch] at hd <;> simp [addedStates]
  · cases op <;> simp [Op.isDispatch] at hd
    · simp [step, addState, addStateWire, addStateRegister, addedStates]
    · simp [step, (changeState_states getName m _).1, addedStates]
    · simp [step, addedStates]

theorem run_states (m : ofxStateMachine SharedData) (ops : List (Op SharedData)) :
    (run getName m ops).1.states =
      (addedStates ops).foldl (fun st s => mapInsert st (getName s) s) m.states := by
  induction ops generalizing m with
  | nil => simp [run, addedStates]
  | cons op ops ih =>
    rw [addedStates_cons, List.foldl_append, ← step_states]
    simp only [run, ih]

theorem mapFind_foldl (added : List StateRef) (states : List (String × StateRef))
    (name : String) :
    mapFind (added.foldl (fun st s => mapInsert st (getName s) s) states) name =
      match mapFind states name with
      | some s => some s
      | none => firstNamed getName added name := by
  induction added generalizing states with
  | nil => cases h : mapFind states name <;> simp [firstNamed, h]
  | cons a rest ih =>
    rw [List.foldl_cons, ih, mapFind_mapInsert]
    cases h : mapFind states name with
    | some s => simp
    | none =>
      by_cases ha : getName a = name
      · simp [firstNamed, ha]
      · simp [firstNamed, ha]

theorem run_mapFind (m : ofxStateMachine SharedData) (ops : List (Op SharedData))
    (name : String) :
    mapFind (run getName m ops).1.states name =
      match mapFind m.states name with
      | some s => some s
      | none => firstNamed getName (addedStates ops) name := by
  rw [run_states, mapFind_foldl]

theorem run_mapFind_of_some (m : ofxStateMachine SharedData) (ops : List (Op SharedData))
    (name : String) (s : StateRef) (h : mapFind m.states name = some s) :
    mapFind (run getName m ops).1.states name = some s := by
  rw [run_mapFind, h]

theorem mapInsert_find_of_mem (states : List (String × StateRef)) (name : String)
    (ptr : StateRef) (h : ∀ k s, (k, s) ∈ states → mapFind states k = some s) :
    ∀ k s, (k, s) ∈ mapInsert states name ptr →
      mapFind (mapInsert states name ptr) k = some s := by
  intro k s hks
  rcases mem_mapInsert _ _ _ _ hks with h1 | h1
  · exact mapFind_mapInsert_of_some _ _ _ _ _ (h k s h1)
  · cases h1
    rw [mapFind_mapInsert]
    cases hn : mapFind states name with
    | none => simp
    | some old =>
      unfold mapInsert at hks
      rw [hn] at hks
      rw [h name ptr hks] at hn
      simpa using hn.symm

theorem foldl_find_of_mem (added : List StateRef) (states : List (String × StateRef))
    (h : ∀ k s, (k, s) ∈ states → mapFind states k = some s) :
    ∀ k s, (k, s) ∈ added.foldl (fun st s => mapInsert st (getName s) s) states →
      mapFind (added.foldl (fun st s => mapInsert st (getName s) s) states) k = some s := by
  induction added generalizing states with
  | nil => exact h
  | cons a rest ih => exact ih _ (mapInsert_find_of_mem _ _ _ h)

theorem run_find_of_mem (d : SharedData) (ops : List (Op SharedData)) (k : String)
    (s : StateRef) (h : (k, s) ∈ (run getName (fresh d) ops).1.states) :
    mapFind (run getName (fresh d) ops).1.states k = some s := by
  rw [run_states] at h ⊢
  exact foldl_find_of_mem getName _ _ (by intro k s hks; simp [fresh] at hks) k s h

theorem changeState_enter (m : ofxStateMachine SharedData) (name : String)
    (hm : Consistent getName m) (s : StateRef)
    (h : Event.call s Hook.stateEnter ∈ (changeState getName m name).2) :
    mapFind m.states name = some s ∧ getName s = name ∧
      (changeState getName m name).1.currentState = some s := by
  rcases changeState_cases getName m name with h1 | h1 | ⟨found, hf, h1⟩
  · simp [h1] at h
  · simp [h1] at h
  · rw [h1] at h ⊢
    have hs : s = found := by
      cases hc : m.currentState <;> simp [hc] at h <;> exact h
    subst hs
    exact ⟨hf, hm.keyed name s (mapFind_mem _ _ _ hf), rfl⟩

theorem step_enter (m : ofxStateMachine SharedData) (op : Op SharedData)
    (s : StateRef) (h : Event.call s Hook.stateEnter ∈ (step getName m op).2) :
    ∃ name, op = Op.changeState name := by
  cases op with
  | changeState name => exact ⟨name, rfl⟩
  | addState state => simp [step, addState, addStateWire, addStateRegister] at h
  | writeSharedData value => simp [step] at h
  | _ =>
    cases hc : m.currentState <;>
      simp [step, update, draw, onKeyPressed, onKeyReleased, onTouchUp, onTouchDown,
        onTouchMoved, onTouchCancelled, onTouchDoubleTap, onMouseReleased, onMousePressed,
        onMouseMoved, onMouseDragged, hc] at h

theorem run_enter_find (m : ofxStateMachine SharedData) (ops : List (Op SharedData))
    (hm : Consistent getName m) (s : StateRef)
    (h : Event.call s Hook.stateEnter ∈ (run getName m ops).2) :
    mapFind (run getName m ops).1.states (getName s) = some s := by
  induction ops generalizing m with
  | nil => simp [run] at h
  | cons op ops ih =>
    simp only [run, List.mem_append] at h ⊢
    rcases h with h | h
    · obtain ⟨name, hop⟩ := step_enter getName m op s h
      subst hop
      have h2 := changeState_enter getName m name hm s h
      apply run_mapFind_of_some
      simp only [step, (changeState_states getName m name).1]
      rw [h2.2.1]
      exact h2.1
    · exact ih _ (consistent_step getName m op hm) h

theorem step_no_enter (m : ofxStateMachine SharedData) (op : Op SharedData)
    (h : ∀ s, Event.call s Hook.stateEnter ∉ (step getName m op).2) :
    (step getName m op).1.currentState = m.currentState ∧
      (step getName m op).1.currentStateName = m.currentStateName := by
  by_cases hd : op.isDispatch = true
  · rw [step_dispatch_fst getName m op hd]
    exact ⟨rfl, rfl⟩
  · cases op <;> simp [Op.isDispatch] at hd
    · exact ⟨rfl, rfl⟩
    · rename_i name
      simp only [step] at h ⊢
      rcases changeState_cases getName m name with h1 | h1 | ⟨found, hf, h1⟩
      · rw [h1]
        exact ⟨rfl, rfl⟩
      · rw [h1]
        exact ⟨rfl, rfl⟩
      · exfalso
        apply h found
        rw [h1]
        simp
    · exact ⟨rfl, rfl⟩

theorem run_no_enter (m : ofxStateMachine SharedData) (ops : List (Op SharedData))
    (h : ∀ s, Event.call s Hook.stateEnter ∉ (run getName m ops).2) :
    (run getName m ops).1.currentState = m.currentState ∧
      (run getName m ops).1.currentStateName = m.currentStateName := by
  induction ops generalizing m with
  | nil => exact ⟨rfl, rfl⟩
  | cons op ops ih =>
    simp only [run, List.mem_append, not_or] at h ⊢
    have h1 := step_no_enter getName m op (fun s => (h s).1)
    have h2 := ih (step getName m op).1 (fun s => (h s).2)
    exact ⟨h2.1.trans h1.1, h2.2.trans h1.2⟩

theorem changeState_log (m : ofxStateMachine SharedData) (name : String)
    (level : LogLevel) (format : String) (args : List String)
    (h : Event.log level format args ∈ (changeState getName m name).2) :
    mapFind m.states name = none := by
  cases hf : mapFind m.states name with
  | none => rfl
  | some found =>
    exfalso
    simp only [changeState, hf] at h
    by_cases hn : name = m.currentStateName
    · rw [if_pos hn] at h
      simp at h
    · rw [if_neg hn] at h
      by_cases hp : some found = m.currentState
      · rw [if_neg (not_not.mpr hp)] at h
        simp at h
      · rw [if_pos hp] at h
        cases hc : m.currentState <;> simp [hc] at h

/-! ## Transitions -/

/-- C1: on a reachable machine, for a name that differs from `getCurrentStateName()` and
under which the registry holds the state `target`, `changeState(name)` fires exactly
`stateExit` on the old current state (nothing when there was none) and then `stateEnter`
on `target`; afterwards `getCurrentState()` is `target` and `getCurrentStateName()` is
`name`. -/
theorem changeState_transition (m : ofxStateMachine SharedData) (name : String)
    (target : StateRef) (hr : Reachable getName m) (hne : name ≠ getCurrentStateName m)
    (hreg : mapFind m.states name = some target) :
    (changeState getName m name).2 =
        (match getCurrentState m with
          | some old => [Event.call old Hook.stateExit]
          | none => []) ++ [Event.call target Hook.stateEnter] ∧
      getCurrentState (changeState getName m name).1 = some target ∧
      getCurrentStateName (changeState getName m name).1 = name := by
  have h := changeState_found getName m name target (consistent_of_reachable getName m hr)
    hne hreg
  rw [h]
  exact ⟨rfl, rfl, rfl⟩

/-- C1, first transition of the worked example: from no current state to B there is no
exit, one enter of B, and B is current afterwards. -/
theorem changeState_transition_witness :
    (changeState exampleName exampleMachine "B").2 = [Event.call 1 Hook.stateEnter] ∧
      getCurrentState (changeState exampleName exampleMachine "B").1 = some 1 ∧
      getCurrentStateName (changeState exampleName exampleMachine "B").1 = "B" :=
  changeState_transition exampleName exampleMachine "B" 1
    ⟨(), [Op.addState 0, Op.addState 1], rfl⟩ (by decide) (by decide)

/-- C2 as stated fails: on a constructed machine no state is registered under the empty
name, yet `changeState("")` logs nothing, because the empty name equals the cached
current-state name. -/
theorem changeState_unknown_counterexample :
    Reachable exampleName (fresh ()) ∧
      hasState (fresh ()) "" = false ∧
      mapFind (fresh ()).states "" = none ∧
      (changeState exampleName (fresh ()) "").2 = [] :=
  ⟨⟨(), [], rfl⟩, by decide, by decide, by decide⟩

/-- C2, amended: on a reachable machine, for a name under which no state is registered
(`hasState(name)` is false), other than the empty name while there is no current state,
`changeState(name)` returns the machine unchanged and its only effect is one
state-not-found error log; no hook of any state is called. -/
theorem changeState_unknown (m : ofxStateMachine SharedData) (name : String)
    (hr : Reachable getName m) (hreg : hasState m name = false)
    (hempty : getCurrentState m = none → name ≠ "") :
    changeState getName m name =
      (m, [Event.log LogLevel.OF_LOG_ERROR noStateFormat [name]]) := by
  have hm := consistent_of_reachable getName m hr
  have hfind : mapFind m.states name = none := by
    cases hf : mapFind m.states name with
    | none => rfl
    | some s =>
      have h1 := (hm.listed name).mpr (by simp [hf])
      simp [hasState] at hreg
      simp [hreg] at h1
  have hne : ¬ name = m.currentStateName := by
    intro h
    cases hc : m.currentState with
    | none => exact hempty hc (by rw [h, hm.unset hc])
    | some cur =>
      have h2 := hm.current cur hc
      rw [h, h2.1, h2.2] at hfind
      simp at hfind
  simp [changeState, hne, hfind]

/-- C2, last step of the worked example: with B current, `changeState("C")` logs the
error and leaves the machine as it was. -/
theorem changeState_unknown_witness :
    changeState exampleName (changeState exampleName exampleMachine "B").1 "C" =
      ((changeState exampleName exampleMachine "B").1,
        [Event.log LogLevel.OF_LOG_ERROR noStateFormat ["C"]]) :=
  changeState_unknown exampleName (changeState exampleName exampleMachine "B").1 "C"
    ⟨(), [Op.addState 0, Op.addState 1, Op.changeState "B"], rfl⟩ (by decide) (by decide)

/-- C3: on a reachable machine with a current state, `changeState` with the name of the
current state returns the machine unchanged (current state, cached name and registry
included) and causes no event: no hook is called and nothing is logged. -/
theorem changeState_same_name (m : ofxStateMachine SharedData) (cur : StateRef)
    (hr : Reachable getName m) (hcur : getCurrentState m = some cur) :
    changeState getName m (getName cur) = (m, []) := by
  have hm := consistent_of_reachable getName m hr
  have h := (hm.current cur hcur).1
  simp [changeState, h]

/-- C3, second step of the worked example: with B current, `changeState("B")` does
nothing. -/
theorem changeState_same_name_witness :
    changeState exampleName (changeState exampleName exampleMachine "B").1 "B" =
      ((changeState exampleName exampleMachine "B").1, []) :=
  changeState_same_name exampleName (changeState exampleName exampleMachine "B").1 1
    ⟨(), [Op.addState 0, Op.addState 1, Op.changeState "B"], rfl⟩ (by decide)

/-- C4: on a reachable machine whose current state is `cur`, for registered names each
of which differs from the one before it (the first from the name of `cur`), the calls
`changeState` on these names in order produce exactly the trace exit(`cur`), enter(B),
exit(B), enter(C), ... over the states `targets` registered under the names, and the
last of them is the current state at the end. -/
theorem changeState_chain (m : ofxStateMachine SharedData) (cur : StateRef)
    (names : List String) (targets : List StateRef) (hr : Reachable getName m)
    (hcur : getCurrentState m = some cur)
    (hreg : List.Forall₂ (fun name target => mapFind m.states name = some target)
      names targets)
    (hdiff : List.Chain (fun a b => a ≠ b) (getName cur) names) :
    (run getName m (names.map Op.changeState)).2 = chainTrace cur targets ∧
      getCurrentState (run getName m (names.map Op.changeState)).1 =
        (cur :: targets).getLast? := by
  induction names generalizing m cur targets with
  | nil =>
    cases hreg
    simp [run, chainTrace, hcur]
  | cons name names ih =>
    cases hreg with
    | @cons _ target _ targets hhead htail =>
    have hm := consistent_of_reachable getName m hr
    have hcur1 : m.currentState = some cur := hcur
    rcases List.chain_cons.mp hdiff with ⟨hne, hrest⟩
    have hne1 : name ≠ m.currentStateName := by
      rw [(hm.current cur hcur1).1]
      exact fun h => hne h.symm
    have hstep := changeState_found getName m name target hm hne1 hhead
    have hname : getName target = name := hm.keyed name target (mapFind_mem _ _ _ hhead)
    have hr1 : Reachable getName (changeState getName m name).1 := by
      have := reachable_run getName m [Op.changeState name] hr
      simpa [run, step] using this
    rw [hstep] at hr1
    have hrest1 : List.Chain (fun a b => a ≠ b) (getName target) names := by
      rw [hname]
      exact hrest
    have h := ih _ target targets hr1 rfl htail hrest1
    simp only [List.map_cons, run, step, hstep, hcur1, chainTrace, List.cons_append,
      List.nil_append, List.singleton_append, h.1, List.getLast?_cons_cons, true_and]
    exact h.2

/-- C4 on the worked example: from A, the chain B, A, B gives exit A, enter B, exit B,
enter A, exit A, enter B. -/
theorem changeState_chain_witness :
    (run exampleName exampleMachineInA
        [Op.changeState "B", Op.changeState "A", Op.changeState "B"]).2 =
      [Event.call 0 Hook.stateExit, Event.call 1 Hook.stateEnter,
        Event.call 1 Hook.stateExit, Event.call 0 Hook.stateEnter,
        Event.call 0 Hook.stateExit, Event.call 1 Hook.stateEnter] ∧
      getCurrentState (run exampleName exampleMachineInA
        [Op.changeState "B", Op.changeState "A", Op.changeState "B"]).1 = some 1 :=
  changeState_chain exampleName exampleMachineInA 0 ["B", "A", "B"] [1, 0, 1]
    ⟨(), [Op.addState 0, Op.addState 1, Op.changeState "A"], rfl⟩ (by decide)
    (List.Forall₂.cons (by decide) (List.Forall₂.cons (by decide)
      (List.Forall₂.cons (by decide) List.Forall₂.nil)))
    (List.Chain.cons (by decide) (List.Chain.cons (by decide)
      (List.Chain.cons (by decide) List.Chain.nil)))

/-! ## The registry -/

/-- C5: after any sequence of operations on a constructed machine, `getStateNames()` is
the list of the names of the states added, in the order of the `addState` calls; an
operation other than `addState` leaves it as it was. -/
theorem getStateNames_registration_order (d : SharedData) (ops : List (Op SharedData)) :
    getStateNames (run getName (fresh d) ops).1 = (addedStates ops).map getName ∧
      ∀ (m : ofxStateMachine SharedData) (op : Op SharedData),
        (∀ state, op ≠ Op.addState state) →
          getStateNames (step getName m op).1 = getStateNames m := by
  constructor
  · simp [getStateNames, run_stateNames, fresh]
  · intro m op hop
    simp only [getStateNames, step_stateNames]
    cases op <;> simp [addedStates]
    exact hop _ rfl

/-- C6: `hasState(name)` is false on a constructed machine; after any sequence of
operations it is true exactly when one of the `addState` calls added a state whose
name is `name`; and once true it is true after any further operations. -/
theorem hasState_iff_added (d : SharedData) (ops : List (Op SharedData)) (name : String) :
    hasState (fresh d) name = false ∧
      (hasState (run getName (fresh d) ops).1 name = true ↔
        ∃ state, state ∈ addedStates ops ∧ getName state = name) ∧
      ∀ (m : ofxStateMachine SharedData) (later : List (Op SharedData)),
        hasState m name = true → hasState (run getName m later).1 name = true := by
  refine ⟨rfl, ?_, ?_⟩
  · simp [hasState, hasStateLoop_iff_mem, run_stateNames, fresh]
  · intro m later h
    simp only [hasState, hasStateLoop_iff_mem, run_stateNames] at h ⊢
    exact List.mem_append_left _ h

/-! ## Dispatch -/

/-- C7: on a machine with current state `cur`, every dispatch operation returns the
machine and causes exactly one event, the call of the corresponding hook of `cur` with
the payload of the event: no other state is called and nothing is logged. -/
theorem dispatch_to_current (m : ofxStateMachine SharedData) (cur : StateRef)
    (hcur : getCurrentState m = some cur) :
    update m = (m, [Event.call cur Hook.update]) ∧
      draw m = (m, [Event.call cur Hook.draw]) ∧
      (∀ data, onKeyPressed m data = (m, [Event.call cur (Hook.keyPressed data.key)])) ∧
      (∀ data, onKeyReleased m data = (m, [Event.call cur (Hook.keyReleased data.key)])) ∧
      (∀ data, onMousePressed m data =
        (m, [Event.call cur (Hook.mousePressed data.x data.y data.button)])) ∧
      (∀ data, onMouseReleased m data =
        (m, [Event.call cur (Hook.mouseReleased data.x data.y data.button)])) ∧
      (∀ data, onMouseMoved m data = (m, [Event.call cur (Hook.mouseMoved data.x data.y)])) ∧
      (∀ data, onMouseDragged m data =
        (m, [Event.call cur (Hook.mouseDragged data.x data.y data.button)])) ∧
      (∀ data, onTouchDown m data = (m, [Event.call cur (Hook.touchDown data)])) ∧
      (∀ data, onTouchUp m data = (m, [Event.call cur (Hook.touchUp data)])) ∧
      (∀ data, onTouchMoved m data = (m, [Event.call cur (Hook.touchMoved data)])) ∧
      (∀ data, onTouchCancelled m data = (m, [Event.call cur (Hook.touchCancelled data)])) ∧
      (∀ data, onTouchDoubleTap m data =
        (m, [Event.call cur (Hook.touchDoubleTap data)])) := by
  have h : m.currentState = some cur := hcur
  simp [update, draw, onKeyPressed, onKeyReleased, onTouchUp, onTouchDown, onTouchMoved,
    onTouchCancelled, onTouchDoubleTap, onMouseReleased, onMousePressed, onMouseMoved,
    onMouseDragged, h]

/-- C7 on the worked example: with A current and B registered too, a key press and a
mouse drag reach A only, with their payload. -/
theorem dispatch_to_current_witness :
    onKeyPressed exampleMachineInA ⟨65⟩ =
        (exampleMachineInA, [Event.call 0 (Hook.keyPressed 65)]) ∧
      onMouseDragged exampleMachineInA ⟨10, 20, 2⟩ =
        (exampleMachineInA, [Event.call 0 (Hook.mouseDragged 10 20 2)]) :=
  have h := dispatch_to_current exampleMachineInA 0 (by decide)
  ⟨h.2.2.1 ⟨65⟩, h.2.2.2.2.2.2.2.1 ⟨10, 20, 2⟩⟩

/-- C8: on a machine with no current state, whatever is registered, `update()` and
`draw()` each return the machine unchanged and cause exactly one event, a warning log;
no member function of any state is called. -/
theorem update_draw_without_state (m : ofxStateMachine SharedData)
    (hnone : getCurrentState m = none) :
    update m = (m, [Event.log LogLevel.OF_LOG_WARNING
        "State machine update called with no state set" []]) ∧
      draw m = (m, [Event.log LogLevel.OF_LOG_WARNING
        "State machine draw called with no state set" []]) := by
  have h : m.currentState = none := hnone
  simp [update, draw, h]

/-- C8 on the worked example: A and B are registered, none is current. -/
theorem update_draw_without_state_witness :
    update exampleMachine = (exampleMachine, [Event.log LogLevel.OF_LOG_WARNING
        "State machine update called with no state set" []]) ∧
      draw exampleMachine = (exampleMachine, [Event.log LogLevel.OF_LOG_WARNING
        "State machine draw called with no state set" []]) :=
  update_draw_without_state exampleMachine (by decide)

/-- C9 as stated fails: on a constructed machine, which has no current state, the key
pressed and key released handlers each log a warning. -/
theorem input_without_state_counterexample :
    getCurrentState (fresh ()) = none ∧
      (onKeyPressed (fresh ()) ⟨65⟩).2 = [Event.log LogLevel.OF_LOG_WARNING
        "State machine keyPressed called with no state set" []] ∧
      (onKeyReleased (fresh ()) ⟨65⟩).2 = [Event.log LogLevel.OF_LOG_WARNING
        "State machine keyReleased called with no state set" []] :=
  ⟨by decide, by decide, by decide⟩

/-- C9, amended: on a machine with no current state every input handler returns the
machine unchanged and calls no hook; the mouse and touch handlers cause no event at
all, and the key pressed and key released handlers log exactly one warning each. -/
theorem input_without_state (m : ofxStateMachine SharedData)
    (hnone : getCurrentState m = none) :
    (∀ data, onMousePressed m data = (m, [])) ∧
      (∀ data, onMouseReleased m data = (m, [])) ∧
      (∀ data, onMouseMoved m data = (m, [])) ∧
      (∀ data, onMouseDragged m data = (m, [])) ∧
      (∀ data, onTouchDown m data = (m, [])) ∧
      (∀ data, onTouchUp m data = (m, [])) ∧
      (∀ data, onTouchMoved m data = (m, [])) ∧
      (∀ data, onTouchCancelled m data = (m, [])) ∧
      (∀ data, onTouchDoubleTap m data = (m, [])) ∧
      (∀ data, onKeyPressed m data = (m, [Event.log LogLevel.OF_LOG_WARNING
        "State machine keyPressed called with no state set" []])) ∧
      (∀ data, onKeyReleased m data = (m, [Event.log LogLevel.OF_LOG_WARNING
        "State machine keyReleased called with no state set" []])) := by
  have h : m.currentState = none := hnone
  simp [onKeyPressed, onKeyReleased, onTouchUp, onTouchDown, onTouchMoved,
    onTouchCancelled, onTouchDoubleTap, onMouseReleased, onMousePressed, onMouseMoved,
    onMouseDragged, h]

/-- C9 on the worked example: with A and B registered and none current, a mouse press
does nothing and a key release logs its warning. -/
theorem input_without_state_witness :
    onMousePressed exampleMachine ⟨10, 20, 0⟩ = (exampleMachine, []) ∧
      onKeyReleased exampleMachine ⟨65⟩ = (exampleMachine, [Event.log LogLevel.OF_LOG_WARNING
        "State machine keyReleased called with no state set" []]) :=
  have h := input_without_state exampleMachine (by decide)
  ⟨h.1 ⟨10, 20, 0⟩, h.2.2.2.2.2.2.2.2.2.2 ⟨65⟩⟩

/-! ## Registration -/

/-- C10: in the trace of any operations on a constructed machine in which every state
object is added once, the trace splits at the `addState` call of an added state into the
events before the call, the events of the call, and the events after it.  The call
hands the state the shared data, then sets it up, then subscribes to it, all before the
registry is written (the machine is still the one before the call, whose map does not
hold the state).  No member function of the state is called before that, and neither
`setSharedData` nor `setup` is called on it afterwards: each is called exactly once, and
every other hook of the state comes after its `setup`. -/
theorem setup_once_before_use (d : SharedData) (ops : List (Op SharedData))
    (state : StateRef) (hn : (addedStates ops).Nodup) (hs : state ∈ addedStates ops) :
    ∃ before after,
      ops = before ++ Op.addState state :: after ∧
      (run getName (fresh d) ops).2 =
        (run getName (fresh d) before).2 ++
          (addStateWire (run getName (fresh d) before).1 state).2 ++
          (run getName (addState getName (run getName (fresh d) before).1 state).1 after).2 ∧
      addStateWire (run getName (fresh d) before).1 state =
        ((run getName (fresh d) before).1,
          [Event.call state (Hook.setSharedData MemberRef.sharedData),
            Event.call state Hook.setup, Event.addListener state]) ∧
      (addStateRegister getName (run getName (fresh d) before).1 state).2 = [] ∧
      (∀ k, (k, state) ∉ (run getName (fresh d) before).1.states) ∧
      (∀ e ∈ (run getName (fresh d) before).2, e.isCallOn state = false) ∧
      (∀ e ∈ (run getName (addState getName (run getName (fresh d) before).1 state).1
          after).2,
        ∀ hook : Hook, hook.isRegistration = true → e ≠ Event.call state hook) := by
  obtain ⟨before, after, hsplit⟩ := addedStates_split ops state hs
  subst hsplit
  rw [addedStates_append, addedStates_cons] at hn
  have hnot := List.nodup_append.mp hn
  have hbefore : state ∉ addedStates before := by
    intro h
    exact hnot.2.2 h (by simp [addedStates])
  have hafter : state ∉ addedStates after := by
    have h2 := hnot.2.1
    simp only [addedStates, List.singleton_append, List.nodup_cons] at h2
    exact h2.1
  have hcons := consistent_run getName (fresh d) before (consistent_fresh getName d)
  refine ⟨before, after, rfl, ?_, rfl, rfl, ?_, ?_, ?_⟩
  · rw [run_append]
    simp [run, step, addState, addStateWire, addStateRegister]
  · intro k hk
    rcases run_states_mem getName (fresh d) before k state hk with h | h
    · simp [fresh] at h
    · exact hbefore h
  · intro e he
    cases e with
    | call s hook =>
      by_cases hse : s = state
      · subst hse
        rcases run_call_mem getName (fresh d) before (consistent_fresh getName d) s hook he
          with ⟨k, h⟩ | h
        · simp [fresh] at h
        · exact absurd h hbefore
      · simp [Event.isCallOn, hse]
    | addListener s => rfl
    | log level format args => rfl
  · intro e he hook hreg heq
    subst heq
    exact hafter (run_registration_mem getName _ after
      (consistent_addState getName _ state hcons) state hook hreg he)

/-- C10 on the worked example: A is added, then B, then B is entered and updated.  B
gets `setSharedData` and `setup` once, in its `addState` call, before its other hooks. -/
theorem setup_once_before_use_witness :
    (run exampleName (fresh ())
        [Op.addState 0, Op.addState 1, Op.changeState "B", Op.update]).2 =
      [Event.call 0 (Hook.setSharedData MemberRef.sharedData), Event.call 0 Hook.setup,
        Event.addListener 0,
        Event.call 1 (Hook.setSharedData MemberRef.sharedData), Event.call 1 Hook.setup,
        Event.addListener 1,
        Event.call 1 Hook.stateEnter, Event.call 1 Hook.update] ∧
    ∃ before after,
      [Op.addState 0, Op.addState 1, Op.changeState "B", Op.update] =
        before ++ Op.addState 1 :: after ∧
      (run exampleName (fresh ())
          [Op.addState 0, Op.addState 1, Op.changeState "B", Op.update]).2 =
        (run exampleName (fresh ()) before).2 ++
          (addStateWire (run exampleName (fresh ()) before).1 1).2 ++
          (run exampleName (addState exampleName (run exampleName (fresh ()) before).1 1).1
            after).2 ∧
      addStateWire (run exampleName (fresh ()) before).1 1 =
        ((run exampleName (fresh ()) before).1,
          [Event.call 1 (Hook.setSharedData MemberRef.sharedData),
            Event.call 1 Hook.setup, Event.addListener 1]) ∧
      (addStateRegister exampleName (run exampleName (fresh ()) before).1 1).2 = [] ∧
      (∀ k, (k, 1) ∉ (run exampleName (fresh ()) before).1.states) ∧
      (∀ e ∈ (run exampleName (fresh ()) before).2, e.isCallOn 1 = false) ∧
      (∀ e ∈ (run exampleName (addState exampleName (run exampleName (fresh ()) before).1 1).1
          after).2,
        ∀ hook : Hook, hook.isRegistration = true → e ≠ Event.call 1 hook) :=
  ⟨by decide, setup_once_before_use exampleName ()
    [Op.addState 0, Op.addState 1, Op.changeState "B", Op.update] 1 (by decide) (by decide)⟩

/-! ## Duplicate names -/

/-- C11 as stated fails: states 2 and 3 are both called C; after both are added the map
still holds state 2 under C, and `changeState` to C enters state 2, not the state added
second (the name list holds C twice). -/
theorem addState_duplicate_counterexample :
    exampleName 2 = "C" ∧ exampleName 3 = "C" ∧
      mapFind (run exampleName (fresh ()) [Op.addState 2, Op.addState 3]).1.states "C" =
        some 2 ∧
      getStateNames (run exampleName (fresh ()) [Op.addState 2, Op.addState 3]).1 =
        ["C", "C"] ∧
      changeState exampleName
          (run exampleName (fresh ()) [Op.addState 2, Op.addState 3]).1 "C" =
        ({ currentState := some 2, currentStateName := "C", stateNames := ["C", "C"],
           states := [("C", 2)], sharedData := () },
          [Event.call 2 Hook.stateEnter]) :=
  ⟨by decide, by decide, by decide, by decide, by decide⟩

/-- C11, amended: when `addState` is called on a reachable machine with a state whose
name is already registered for the state `old`, the map is left as it was (the entry
still holds `old`) and the name is appended once more to the name list; after any later
operations the lookup of the name still finds `old`, and a `changeState` to that name,
other than the cached one, makes `old` the current state. -/
theorem addState_duplicate_keeps_first (m : ofxStateMachine SharedData)
    (state old : StateRef) (hr : Reachable getName m)
    (hold : mapFind m.states (getName state) = some old) :
    (addState getName m state).1.states = m.states ∧
      getStateNames (addState getName m state).1 = getStateNames m ++ [getName state] ∧
      ∀ later : List (Op SharedData),
        mapFind (run getName (addState getName m state).1 later).1.states (getName state) =
          some old ∧
        (getName state ≠
            getCurrentStateName (run getName (addState getName m state).1 later).1 →
          getCurrentState (changeState getName
            (run getName (addState getName m state).1 later).1 (getName state)).1 =
              some old) := by
  have hstates : (addState getName m state).1.states = m.states := by
    simp [addState, addStateWire, addStateRegister, mapInsert, hold]
  refine ⟨hstates, rfl, ?_⟩
  intro later
  have hfind : mapFind (run getName (addState getName m state).1 later).1.states
      (getName state) = some old :=
    run_mapFind_of_some getName _ later _ _ (by rw [hstates]; exact hold)
  refine ⟨hfind, ?_⟩
  intro hne
  have hr2 : Reachable getName (run getName m (Op.addState state :: later)).1 :=
    reachable_run getName m _ hr
  have hm2 := consistent_of_reachable getName _ hr2
  simp only [run, step] at hm2
  rw [changeState_found getName _ _ old hm2 hne hfind]
  rfl

/-- C11 on the worked example: state 2 is registered under C, state 3 is added under the
same name, and a later `changeState` to C makes state 2 current. -/
theorem addState_duplicate_keeps_first_witness :
    (addState exampleName (run exampleName (fresh ()) [Op.addState 2]).1 3).1.states =
        [("C", 2)] ∧
      getCurrentState (changeState exampleName
        (run exampleName
          (addState exampleName (run exampleName (fresh ()) [Op.addState 2]).1 3).1
          [Op.update]).1 "C").1 = some 2 :=
  have h := addState_duplicate_keeps_first exampleName
    (run exampleName (fresh ()) [Op.addState 2]).1 3 2 ⟨(), [Op.addState 2], rfl⟩
    (by decide)
  ⟨h.1, (h.2.2 [Op.update]).2 (by decide)⟩

/-- C16: after any operations on a constructed machine, the map lookup of a name finds
the first of the added states that has this name; a `changeState` that enters a state
enters that one and makes it current; and a state that is not the first added under its
name is in no map entry, is not the current state, and `stateEnter` is never called on
it. -/
theorem changeState_first_registered (d : SharedData) (ops : List (Op SharedData))
    (name : String) :
    mapFind (run getName (fresh d) ops).1.states name =
        firstNamed getName (addedStates ops) name ∧
      (∀ s, Event.call s Hook.stateEnter ∈
          (changeState getName (run getName (fresh d) ops).1 name).2 →
        firstNamed getName (addedStates ops) name = some s ∧
          getCurrentState (changeState getName (run getName (fresh d) ops).1 name).1 =
            some s) ∧
      (∀ s, name ≠ getCurrentStateName (run getName (fresh d) ops).1 →
        firstNamed getName (addedStates ops) name = some s →
          getCurrentState (changeState getName (run getName (fresh d) ops).1 name).1 =
            some s) ∧
      (∀ s, firstNamed getName (addedStates ops) (getName s) ≠ some s →
        (∀ k, (k, s) ∉ (run getName (fresh d) ops).1.states) ∧
          getCurrentState (run getName (fresh d) ops).1 ≠ some s ∧
          Event.call s Hook.stateEnter ∉ (run getName (fresh d) ops).2) := by
  have hm := consistent_run getName (fresh d) ops (consistent_fresh getName d)
  have hfirst : ∀ n, mapFind (run getName (fresh d) ops).1.states n =
      firstNamed getName (addedStates ops) n := by
    intro n
    rw [run_mapFind]
    rfl
  refine ⟨hfirst name, ?_, ?_, ?_⟩
  · intro s h
    have h2 := changeState_enter getName _ name hm s h
    exact ⟨by rw [← hfirst, h2.1], h2.2.2⟩
  · intro s hne hs
    rw [changeState_found getName _ name s hm hne (by rw [hfirst, hs])]
    rfl
  · intro s hs
    refine ⟨?_, ?_, ?_⟩
    · intro k hk
      have h1 := run_find_of_mem getName d ops k s hk
      have h2 := hm.keyed k s hk
      rw [← h2, hfirst] at h1
      exact hs h1
    · intro hc
      have h1 := (hm.current s hc).2
      rw [hfirst] at h1
      exact hs h1
    · intro he
      have h1 := run_enter_find getName (fresh d) ops (consistent_fresh getName d) s he
      rw [hfirst] at h1
      exact hs h1

/-- C17: after any operations on a constructed machine, duplicate names included,
`hasState(name)` is true exactly when the map lookup of `changeState` finds a state
under `name`; so when `changeState(name)` logs anything, `hasState(name)` is false. -/
theorem hasState_iff_lookup (d : SharedData) (ops : List (Op SharedData)) (name : String) :
    (hasState (run getName (fresh d) ops).1 name = true ↔
        (mapFind (run getName (fresh d) ops).1.states name).isSome = true) ∧
      (∀ level format args, Event.log level format args ∈
          (changeState getName (run getName (fresh d) ops).1 name).2 →
        hasState (run getName (fresh d) ops).1 name = false) := by
  have hm := consistent_run getName (fresh d) ops (consistent_fresh getName d)
  refine ⟨hm.listed name, ?_⟩
  intro level format args h
  have hnone := changeState_log getName _ name level format args h
  cases hh : hasState (run getName (fresh d) ops).1 name with
  | false => rfl
  | true =>
    have h2 := (hm.listed name).mp hh
    rw [hnone] at h2
    simp at h2

/-! ## The current state -/

/-- C12: after any operations on a constructed machine the current-state reference is
either null or the state the map holds under the current-state name. -/
theorem current_state_registered (d : SharedData) (ops : List (Op SharedData)) :
    getCurrentState (run getName (fresh d) ops).1 = none ∨
      ∃ cur, getCurrentState (run getName (fresh d) ops).1 = some cur ∧
        mapFind (run getName (fresh d) ops).1.states
          (getCurrentStateName (run getName (fresh d) ops).1) = some cur := by
  have hm := consistent_run getName (fresh d) ops (consistent_fresh getName d)
  cases hc : (run getName (fresh d) ops).1.currentState with
  | none => exact Or.inl hc
  | some cur =>
    right
    have h := hm.current cur hc
    exact ⟨cur, hc, by rw [getCurrentStateName, h.1]; exact h.2⟩

/-- C13: after any operations on a constructed machine, if there is a current state
then `getCurrentStateName()` is its `getName()`, and if there is none then
`getCurrentStateName()` is the empty string. -/
theorem current_name_in_sync (d : SharedData) (ops : List (Op SharedData)) :
    (∀ cur, getCurrentState (run getName (fresh d) ops).1 = some cur →
        getCurrentStateName (run getName (fresh d) ops).1 = getName cur) ∧
      (getCurrentState (run getName (fresh d) ops).1 = none →
        getCurrentStateName (run getName (fresh d) ops).1 = "") := by
  have hm := consistent_run getName (fresh d) ops (consistent_fresh getName d)
  exact ⟨fun cur hc => (hm.current cur hc).1, hm.unset⟩

/-- C14: every operation other than `changeState` leaves the current-state reference
and the current-state name as they were (`hasState` and `getStateNames` only return a
value); a `changeState` that does not enter a state returns the machine unchanged; and
after operations in which no `changeState` entered a state there is no current state
and the cached name is empty. -/
theorem current_state_frame (d : SharedData) (ops : List (Op SharedData)) :
    (∀ (m : ofxStateMachine SharedData) (op : Op SharedData),
        (∀ name, op ≠ Op.changeState name) →
        getCurrentState (step getName m op).1 = getCurrentState m ∧
          getCurrentStateName (step getName m op).1 = getCurrentStateName m) ∧
      (∀ (m : ofxStateMachine SharedData) (name : String),
        (∀ s, Event.call s Hook.stateEnter ∉ (changeState getName m name).2) →
          (changeState getName m name).1 = m) ∧
      ((∀ s, Event.call s Hook.stateEnter ∉ (run getName (fresh d) ops).2) →
        getCurrentState (run getName (fresh d) ops).1 = none ∧
          getCurrentStateName (run getName (fresh d) ops).1 = "") := by
  refine ⟨?_, ?_, ?_⟩
  · intro m op hop
    apply step_no_enter
    intro s hs
    obtain ⟨name, hname⟩ := step_enter getName m op s hs
    exact hop name hname
  · intro m name h
    rcases changeState_cases getName m name with h1 | h1 | ⟨found, hf, h1⟩
    · rw [h1]
    · rw [h1]
    · exfalso
      apply h found
      rw [h1]
      simp
  · intro h
    exact run_no_enter getName (fresh d) ops h

/-! ## Self-transitions -/

/-- C18: on a reachable machine with no current state, `changeState` with the empty name
returns the machine unchanged and causes no event, whether or not a state is registered
under the empty name: no hook is called, nothing is logged, and there is still no
current state. -/
theorem changeState_empty_name (m : ofxStateMachine SharedData)
    (hr : Reachable getName m) (hnone : getCurrentState m = none) :
    changeState getName m "" = (m, []) ∧
      getCurrentState (changeState getName m "").1 = none := by
  have hm := consistent_of_reachable getName m hr
  have h : m.currentStateName = "" := hm.unset hnone
  have h2 : changeState getName m "" = (m, []) := by
    simp [changeState, h]
  rw [h2]
  exact ⟨rfl, hnone⟩

/-- C18 on a machine in which state 0 is registered under the empty name: the lookup
would find it, yet `changeState` with the empty name does nothing. -/
theorem changeState_empty_name_witness :
    mapFind (run (fun _ => "") (fresh ()) [Op.addState 0]).1.states "" = some 0 ∧
      changeState (fun _ => "") (run (fun _ => "") (fresh ()) [Op.addState 0]).1 "" =
        ((run (fun _ => "") (fresh ()) [Op.addState 0]).1, []) ∧
      getCurrentState (changeState (fun _ => "")
        (run (fun _ => "") (fresh ()) [Op.addState 0]).1 "").1 = none :=
  ⟨by decide, changeState_empty_name (fun _ => "")
    (run (fun _ => "") (fresh ()) [Op.addState 0]).1 ⟨(), [Op.addState 0], rfl⟩
    (by decide)⟩

/-- C19: on a reachable machine, for every name, a second `changeState(name)` right
after the first leaves the machine as the first left it, and calls no hook of any
state. -/
theorem changeState_idempotent (m : ofxStateMachine SharedData) (name : String)
    (hr : Reachable getName m) :
    (changeState getName (changeState getName m name).1 name).1 =
        (changeState getName m name).1 ∧
      ∀ s hook, Event.call s hook ∉
        (changeState getName (changeState getName m name).1 name).2 := by
  have hm := consistent_of_reachable getName m hr
  rcases changeState_cases getName m name with h1 | h1 | ⟨found, hf, h1⟩
  · rw [h1]
    simp only [h1]
    exact ⟨trivial, fun s hook h => by simp at h⟩
  · rw [h1]
    simp only [h1]
    exact ⟨trivial, fun s hook h => by simp at h⟩
  · have hname : getName found = name := hm.keyed name found (mapFind_mem _ _ _ hf)
    rw [h1]
    have h2 : changeState getName
        { m with currentState := some found, currentStateName := getName found } name =
        ({ m with currentState := some found, currentStateName := getName found }, []) := by
      simp [changeState, hname]
    simp only [h2]
    exact ⟨trivial, fun s hook h => by simp at h⟩

/-- C19 on the worked example: a second `changeState` to B changes nothing, and a second
`changeState` to the unknown name C leaves the machine as it was. -/
theorem changeState_idempotent_witness :
    ((changeState exampleName (changeState exampleName exampleMachine "B").1 "B").1 =
        (changeState exampleName exampleMachine "B").1 ∧
      ∀ s hook, Event.call s hook ∉
        (changeState exampleName (changeState exampleName exampleMachine "B").1 "B").2) ∧
    (changeState exampleName (changeState exampleName exampleMachine "C").1 "C").1 =
        (changeState exampleName exampleMachine "C").1 :=
  ⟨changeState_idempotent exampleName exampleMachine "B"
      ⟨(), [Op.addState 0, Op.addState 1], rfl⟩,
    by decide⟩

/-- C20: on a reachable machine, when `name` differs from the cached current-state name
and the lookup finds a state, that state is not the current state; so `changeState`
returns the same machine and the same events as the variant without the pointer
comparison. -/
theorem changeState_pointer_test_redundant (m : ofxStateMachine SharedData)
    (name : String) (hr : Reachable getName m) :
    (∀ found, name ≠ getCurrentStateName m → mapFind m.states name = some found →
        some found ≠ getCurrentState m) ∧
      changeState getName m name = changeStateUnguarded getName m name := by
  have hm := consistent_of_reachable getName m hr
  have hdiff : ∀ found, name ≠ getCurrentStateName m → mapFind m.states name = some found →
      some found ≠ getCurrentState m := by
    intro found hne hf h
    have hname : getName found = name := hm.keyed name found (mapFind_mem _ _ _ hf)
    exact hne (by rw [getCurrentStateName, (hm.current found h.symm).1, hname])
  refine ⟨hdiff, ?_⟩
  by_cases hn : name = m.currentStateName
  · simp [changeState, changeStateUnguarded, hn]
  · cases hf : mapFind m.states name with
    | none => simp [changeState, changeStateUnguarded, hn, hf]
    | some found =>
      rw [changeState_found getName m name found hm hn hf]
      have hname : getName found = name := hm.keyed name found (mapFind_mem _ _ _ hf)
      simp [changeStateUnguarded, hn, hf, hname]

/-- C20 on the worked example: with A current, `changeState` to B and its variant
without the pointer comparison agree. -/
theorem changeState_pointer_test_redundant_witness :
    changeState exampleName exampleMachineInA "B" =
        changeStateUnguarded exampleName exampleMachineInA "B" ∧
      changeStateUnguarded exampleName exampleMachineInA "B" =
        ({ currentState := some 1, currentStateName := "B", stateNames := ["A", "B"],
           states := [("A", 0), ("B", 1)], sharedData := () },
          [Event.call 0 Hook.stateExit, Event.call 1 Hook.stateEnter]) :=
  ⟨(changeState_pointer_test_redundant exampleName exampleMachineInA "B"
      ⟨(), [Op.addState 0, Op.addState 1, Op.changeState "A"], rfl⟩).2,
    by decide⟩

end ofxStateMachine

end itg
